import Mathlib

/-!
Verification development for the course-extraction tool in `src/app.py`.

Strings are modelled as `List Char`.  Python's `str.strip()` becomes
`pyStrip`, the fence cleaner `clean_json_text` is translated statement by
statement from the source, `json.loads` is modelled by a lexer plus a
recursive-descent parser over tokens (`pyJsonLoads`), and the per-file
loop, `Source_File` tagging, the pandas column completion and the Excel
emission are each given as executable functions below.
-/

/-- The four whitespace characters recognised by the JSON decoder. -/
def isJsonWs (c : Char) : Bool :=
  c == ' ' || c == '\t' || c == '\n' || c == '\r'

/-- ASCII whitespace stripped by Python's `str.strip()` (adds `\x0b`, `\x0c`). -/
def isPyWs (c : Char) : Bool :=
  isJsonWs c || c == '\x0b' || c == '\x0c'

/-- Python's `text.strip()`: remove whitespace from both ends. -/
def pyStrip (l : List Char) : List Char :=
  (l.dropWhile isPyWs).rdropWhile isPyWs

/-- The seven-character opening fence `"```json"`. -/
def fenceJson : List Char := "```json".data

/-- The three-character fence `"```"`. -/
def fencePlain : List Char := "```".data

/-- Source line 72 and 73: strip a leading code fence when present. -/
def stripLeadingFence (t : List Char) : List Char :=
  if fenceJson.isPrefixOf t then t.drop 7
  else if fencePlain.isPrefixOf t then t.drop 3
  else t

/-- Source line 74: strip a trailing ```` ``` ```` when present (`text[:-3]`). -/
def stripTrailingFence (t : List Char) : List Char :=
  if fencePlain.isSuffixOf t then t.take (t.length - 3) else t

/-- `clean_json_text` from `src/app.py` lines 69-75. -/
def clean_json_text (text : List Char) : List Char :=
  pyStrip (stripTrailingFence (stripLeadingFence (pyStrip text)))

/-- A decoded JSON value; numbers keep their source lexeme. -/
inductive Json where
  | null
  | bool (b : Bool)
  | num (lexeme : List Char)
  | str (s : List Char)
  | arr (items : List Json)
  | obj (entries : List (List Char × Json))

instance : Inhabited Json := ⟨Json.null⟩

/-- A Python dict with string keys, as produced by `json.loads` for objects. -/
def PyDict := List (List Char × Json)

/-- Python `d[k] = v`: overwrite in place when the key exists, else append. -/
def dictInsert : PyDict → List Char → Json → PyDict
  | [], k, v => [(k, v)]
  | (k1, v1) :: rest, k, v =>
      if k1 = k then (k1, v) :: rest else (k1, v1) :: dictInsert rest k v

/-- Python `d.get(k)`: first (only) binding of `k`. -/
def pyLookup : PyDict → List Char → Option Json
  | [], _ => none
  | (k1, v1) :: rest, k => if k1 = k then some v1 else pyLookup rest k

/-- Tokens produced by the JSON lexer. -/
inductive Token where
  | lbrace | rbrace | lbrack | rbrack | colon | comma
  | tstr (s : List Char) | tnum (lexeme : List Char) | ttrue | tfalse | tnull

/-- Hexadecimal digit test for `\uXXXX` escapes. -/
def isHexDigit (c : Char) : Bool :=
  c.isDigit || ('a' ≤ c && c ≤ 'f') || ('A' ≤ c && c ≤ 'F')

/-- Value of a hexadecimal digit. -/
def hexVal (c : Char) : Nat :=
  if c.isDigit then c.toNat - 48
  else if 'a' ≤ c && c ≤ 'f' then c.toNat - 87
  else c.toNat - 55

/-- Lex a JSON string body (the opening quote is already consumed); returns
the decoded characters and the input after the closing quote.  Raw control
characters are rejected, as in the decoder's strict mode. -/
def lexString : List Char → Option (List Char × List Char)
  | [] => none
  | '"' :: r => some ([], r)
  | '\\' :: '"' :: r => (lexString r).map (fun p => ('"' :: p.1, p.2))
  | '\\' :: '\\' :: r => (lexString r).map (fun p => ('\\' :: p.1, p.2))
  | '\\' :: '/' :: r => (lexString r).map (fun p => ('/' :: p.1, p.2))
  | '\\' :: 'b' :: r => (lexString r).map (fun p => ('\x08' :: p.1, p.2))
  | '\\' :: 'f' :: r => (lexString r).map (fun p => ('\x0c' :: p.1, p.2))
  | '\\' :: 'n' :: r => (lexString r).map (fun p => ('\n' :: p.1, p.2))
  | '\\' :: 'r' :: r => (lexString r).map (fun p => ('\r' :: p.1, p.2))
  | '\\' :: 't' :: r => (lexString r).map (fun p => ('\t' :: p.1, p.2))
  | '\\' :: 'u' :: a :: b :: c :: d :: r =>
      if isHexDigit a && isHexDigit b && isHexDigit c && isHexDigit d then
        (lexString r).map (fun p =>
          (Char.ofNat (hexVal a * 4096 + hexVal b * 256 + hexVal c * 16 + hexVal d) :: p.1, p.2))
      else none
  | '\\' :: _ => none
  | c :: r => if c.toNat < 32 then none else (lexString r).map (fun p => (c :: p.1, p.2))

/-- Longest digit run at the front, with the remainder. -/
def spanDigits (l : List Char) : List Char × List Char :=
  (l.takeWhile Char.isDigit, l.dropWhile Char.isDigit)

/-- Integer part of a JSON number: `0` or a nonzero digit followed by digits. -/
def lexInt : List Char → Option (List Char × List Char)
  | '0' :: r => some (['0'], r)
  | c :: r =>
      if c.isDigit then
        let p := spanDigits r
        some (c :: p.1, p.2)
      else none
  | [] => none

/-- Optional fraction part `.[0-9]+`; yields `[]` when absent. -/
def lexFrac : List Char → List Char × List Char
  | '.' :: r =>
      let p := spanDigits r
      if p.1.isEmpty then ([], '.' :: r) else ('.' :: p.1, p.2)
  | l => ([], l)

/-- Optional exponent part `[eE][+-]?[0-9]+`; yields `[]` when absent. -/
def lexExpPart : List Char → List Char × List Char
  | c :: s :: r =>
      if c == 'e' || c == 'E' then
        if s == '+' || s == '-' then
          let p := spanDigits r
          if p.1.isEmpty then ([], c :: s :: r) else (c :: s :: p.1, p.2)
        else
          let p := spanDigits (s :: r)
          if p.1.isEmpty then ([], c :: s :: r) else (c :: p.1, p.2)
      else ([], c :: s :: r)
  | l => ([], l)

/-- Lex one JSON number (the grammar `-?(0|[1-9][0-9]*)(.[0-9]+)?([eE][+-]?[0-9]+)?`). -/
def lexNumber (l : List Char) : Option (List Char × List Char) :=
  match l with
  | '-' :: r =>
      match lexInt r with
      | some (ip, r1) =>
          let f := lexFrac r1
          let e := lexExpPart f.2
          some ('-' :: (ip ++ f.1 ++ e.1), e.2)
      | none => none
  | _ =>
      match lexInt l with
      | some (ip, r1) =>
          let f := lexFrac r1
          let e := lexExpPart f.2
          some (ip ++ f.1 ++ e.1, e.2)
      | none => none

/-- Tokenise JSON text, skipping the four JSON whitespace characters.  The
fuel is the input length: every step consumes at least one character. -/
def lexTokens : Nat → List Char → Option (List Token)
  | _, [] => some []
  | 0, _ :: _ => none
  | f + 1, c :: rest =>
      if isJsonWs c then lexTokens f rest
      else if c == '\x7b' then (lexTokens f rest).map (Token.lbrace :: ·)
      else if c == '\x7d' then (lexTokens f rest).map (Token.rbrace :: ·)
      else if c == '[' then (lexTokens f rest).map (Token.lbrack :: ·)
      else if c == ']' then (lexTokens f rest).map (Token.rbrack :: ·)
      else if c == ':' then (lexTokens f rest).map (Token.colon :: ·)
      else if c == ',' then (lexTokens f rest).map (Token.comma :: ·)
      else if c == '"' then
        match lexString rest with
        | some (s, r) => (lexTokens f r).map (Token.tstr s :: ·)
        | none => none
      else if c == 't' then
        match rest with
        | 'r' :: 'u' :: 'e' :: r => (lexTokens f r).map (Token.ttrue :: ·)
        | _ => none
      else if c == 'f' then
        match rest with
        | 'a' :: 'l' :: 's' :: 'e' :: r => (lexTokens f r).map (Token.tfalse :: ·)
        | _ => none
      else if c == 'n' then
        match rest with
        | 'u' :: 'l' :: 'l' :: r => (lexTokens f r).map (Token.tnull :: ·)
        | _ => none
      else if c == '-' || c.isDigit then
        match lexNumber (c :: rest) with
        | some (lx, r) => (lexTokens f r).map (Token.tnum lx :: ·)
        | none => none
      else none

mutual

/-- Parse one JSON value from a token stream. -/
def parseVal : Nat → List Token → Option (Json × List Token)
  | 0, _ => none
  | _ + 1, [] => none
  | f + 1, Token.lbrack :: ts => parseArr f ts
  | f + 1, Token.lbrace :: ts => parseObj f ts
  | _ + 1, Token.tstr s :: ts => some (Json.str s, ts)
  | _ + 1, Token.tnum n :: ts => some (Json.num n, ts)
  | _ + 1, Token.ttrue :: ts => some (Json.bool true, ts)
  | _ + 1, Token.tfalse :: ts => some (Json.bool false, ts)
  | _ + 1, Token.tnull :: ts => some (Json.null, ts)
  | _ + 1, _ :: _ => none

/-- Parse the items of an array, the opening `[` already consumed. -/
def parseArr : Nat → List Token → Option (Json × List Token)
  | 0, _ => none
  | _ + 1, Token.rbrack :: ts => some (Json.arr [], ts)
  | f + 1, ts =>
      match parseVal f ts with
      | some (v, ts1) => parseArrTail f [v] ts1
      | none => none

/-- Parse `, item`* `]` with the items seen so far accumulated in reverse. -/
def parseArrTail : Nat → List Json → List Token → Option (Json × List Token)
  | 0, _, _ => none
  | _ + 1, acc, Token.rbrack :: ts => some (Json.arr acc.reverse, ts)
  | f + 1, acc, Token.comma :: ts =>
      match parseVal f ts with
      | some (v, ts1) => parseArrTail f (v :: acc) ts1
      | none => none
  | _ + 1, _, _ => none

/-- Parse the members of an object, the opening brace already consumed. -/
def parseObj : Nat → List Token → Option (Json × List Token)
  | 0, _ => none
  | _ + 1, Token.rbrace :: ts => some (Json.obj [], ts)
  | f + 1, Token.tstr k :: Token.colon :: ts =>
      match parseVal f ts with
      | some (v, ts1) => parseObjTail f (dictInsert [] k v) ts1
      | none => none
  | _ + 1, _ => none

/-- Parse `, "key": value`* and the closing brace; duplicate keys overwrite,
as in a Python dict. -/
def parseObjTail : Nat → PyDict → List Token → Option (Json × List Token)
  | 0, _, _ => none
  | _ + 1, acc, Token.rbrace :: ts => some (Json.obj acc, ts)
  | f + 1, acc, Token.comma :: Token.tstr k :: Token.colon :: ts =>
      match parseVal f ts with
      | some (v, ts1) => parseObjTail f (dictInsert acc k v) ts1
      | none => none
  | _ + 1, _, _ => none

end

/-- `json.loads`: tokenise, parse one value, and require that nothing but
whitespace follows (whitespace was already dropped by the lexer). -/
def pyJsonLoads (l : List Char) : Option Json :=
  match lexTokens l.length l with
  | some ts =>
      match parseVal (2 * ts.length + 2) ts with
      | some (v, []) => some v
      | _ => none
  | none => none

/-- The provenance key written into every parsed record (line 165). -/
def sourceFileKey : List Char := "Source_File".data

/-- One uploaded file: its display name, the content type reported by the
uploader, and the raw text returned for it by `get_gemini_response` (the AI
call itself is an external collaborator, so its reply is an input here). -/
structure UploadedFile where
  name : List Char
  ftype : List Char
  response : List Char

/-- Lines 152-154: when the detected content type is falsy, infer it from
the file name (`endswith(('.png', '.jpg'))`), else keep it. -/
def resolveMime (ftype : List Char) (name : List Char) : List Char :=
  if ftype = [] then
    if ".png".data.isSuffixOf name || ".jpg".data.isSuffixOf name
    then "image/png".data else "text/plain".data
  else ftype

/-- Lines 164-165, `for item in data: item['Source_File'] = file.name` when
`data` is a list: tag each dict; a non-dict element raises `TypeError` at
that point (string indices / item assignment), modelled as `none`. -/
def tagLoop (fname : List Char) : List Json → Option (List PyDict)
  | [] => some []
  | Json.obj kvs :: rest =>
      (tagLoop fname rest).map (dictInsert kvs sourceFileKey (Json.str fname) :: ·)
  | _ :: _ => none

/-- Lines 164-167 for an arbitrary decoded value: iterating a non-empty dict
yields string keys and the item assignment raises; iterating a non-empty
string yields characters and raises; numbers, booleans and null are not
iterable and raise; an empty dict or empty string iterates zero times and
`all_data.extend` then appends nothing. -/
def tagAndExtend (fname : List Char) : Json → Option (List PyDict)
  | Json.arr xs => tagLoop fname xs
  | Json.obj [] => some []
  | Json.obj (_ :: _) => none
  | Json.str [] => some []
  | Json.str (_ :: _) => none
  | _ => none

/-- Lines 160-167 for one file: clean the raw response, decode it, and tag
the records; `none` is any exception reaching the `except` clause. -/
def fileOutcome (f : UploadedFile) : Option (List PyDict) :=
  match pyJsonLoads (clean_json_text f.response) with
  | some j => tagAndExtend f.name j
  | none => none

/-- Mutable state of the main loop: `all_data` plus the reported errors. -/
structure RunState where
  all_data : List PyDict
  errors : List (List Char)

/-- Lines 150-171, one iteration: either extend `all_data` with the file's
records, or report a per-file error and leave `all_data` untouched. -/
def processFile (s : RunState) (f : UploadedFile) : RunState :=
  match fileOutcome f with
  | some recs => { all_data := s.all_data ++ recs, errors := s.errors }
  | none => { all_data := s.all_data, errors := s.errors ++ [f.name] }

/-- Line 147: the loop over the uploaded files in submission order. -/
def runFiles (s : RunState) (files : List UploadedFile) : RunState :=
  files.foldl processFile s

/-- Lines 183-188: the fixed output column order. -/
def desired_columns : List (List Char) :=
  ["School_CN".data, "School_EN".data, "Program_CN".data, "Program_EN".data,
   "Course_Name_EN".data, "Course_Content_EN".data, "Source_File".data]

/-- The columns of `pd.DataFrame(all_data)`: the union of the record keys in
first-appearance order. -/
def allKeysList (data : List PyDict) : List (List Char) :=
  data.foldl (fun cols r => cols ++ (r.map Prod.fst).filter (fun k => decide (k ∉ cols))) []

/-- Cell `(i, c)` of the completed dataframe (lines 180, 191-193): a column
absent from every record is created holding the empty string for all rows;
in an existing column, a record without the key holds the missing marker
(pandas `NaN`), modelled as `none`. -/
def completedCell (data : List PyDict) (i : Nat) (c : List Char) : Option Json :=
  if c ∈ allKeysList data then
    match data[i]? with
    | some r => pyLookup r c
    | none => none
  else some (Json.str [])

/-- Row `i` of `df[desired_columns]` (line 195). -/
def exportRow (data : List PyDict) (i : Nat) : List (Option Json) :=
  desired_columns.map (completedCell data i)

/-- Lines 200-212: `df.to_excel` writes the projected rows in dataframe
order; the only other worksheet operations set column widths. -/
def exportedRows (data : List PyDict) : List (List (Option Json)) :=
  (List.range data.length).map (exportRow data)

/-- The four school/program cells of an emitted row, the composite grouping
key of the spec. -/
def rowGroupKey (row : List (Option Json)) : List (Option Json) :=
  row.take 4

/-- Lines 179 and 200-212: an artifact is produced only when `all_data` is
non-empty (`if all_data:`). -/
def buildArtifact (all_data : List PyDict) : Option (List (List (Option Json))) :=
  if all_data.isEmpty then none else some (exportedRows all_data)

/-- Lines 226-227: the `else` branch shows the "no data extracted" warning. -/
def noDataWarning (all_data : List PyDict) : Bool :=
  all_data.isEmpty

/-- Spec-side test: is this JSON value an object? -/
def isJsonObject : Json → Bool
  | Json.obj _ => true
  | _ => false

/-- Spec-side test: is a decode result a JSON array all of whose items are
objects? -/
def isArrayOfObjects : Option Json → Bool
  | some (Json.arr xs) => xs.all isJsonObject
  | _ => false

/-- Spec-side test: decode results that the loop body skips silently (an
empty object or an empty string contributes zero records with no error). -/
def silentEmpty : Option Json → Bool
  | some (Json.obj []) => true
  | some (Json.str []) => true
  | _ => false

/-- Two records whose `School_CN` values differ: the batch fed to the
column-completion stage when two files report different schools. -/
def c1Data : List PyDict :=
  [[("School_CN".data, Json.str "A".data)], [("School_CN".data, Json.str "B".data)]]

/-- Three records with school values A, B, A: rows 0 and 2 share a grouping
key but are separated by row 1. -/
def c2Data : List PyDict :=
  [[("School_CN".data, Json.str "A".data)],
   [("School_CN".data, Json.str "B".data)],
   [("School_CN".data, Json.str "A".data)]]

/-- The grouping key of a `c2Data` row whose school is `s`: the three other
grouping columns are batch-wide absent, hence completed to `""`. -/
def c2Key (s : List Char) : List (Option Json) :=
  [some (Json.str s), some (Json.str []), some (Json.str []), some (Json.str [])]

/-- Record 0 has `Course_Name_EN`, record 1 has `School_CN`; each lacks a
key the other supplies. -/
def c3Data : List PyDict :=
  [[("Course_Name_EN".data, Json.str "X".data)], [("School_CN".data, Json.str "A".data)]]

/-- Fence-cleaner input on which a second strip removes more text. -/
def c4Text : List Char := "``````json x".data

/-- A file whose response decodes to the empty JSON object. -/
def c6File : UploadedFile :=
  { name := "obj.txt".data, ftype := "text/plain".data, response := "\x7b\x7d".data }

/-- A file whose response decodes to a JSON number, not an array. -/
def c6NumFile : UploadedFile :=
  { name := "num.txt".data, ftype := "text/plain".data, response := "5".data }

/-- A file whose extraction response is the client-side error string. -/
def c7File : UploadedFile :=
  { name := "bad.txt".data, ftype := "text/plain".data, response := "Error: boom".data }

/-- A file whose response is malformed JSON, so the whole run stays empty. -/
def c8File : UploadedFile :=
  { name := "junk.txt".data, ftype := "text/plain".data, response := "oops".data }

/-- A file whose response already carries a `Source_File` field that must be
overwritten with the upload name. -/
def c9File : UploadedFile :=
  { name := "real.txt".data, ftype := "text/plain".data,
    response := "[\x7b\"Source_File\": \"fake\"\x7d]".data }

/-- The record contributed by `c9File` after tagging. -/
def c9Rec : PyDict := [(sourceFileKey, Json.str "real.txt".data)]

/-- A well-formed fenced response used to exercise the fence theorem. -/
def c5Payload : List Char := "[\x7b\"a\": \"b\"\x7d]".data

/-! ### Helper lemmas about stripping and fences -/

theorem head_false_of_dropWhile_self {p : Char → Bool} {c : Char} {t : List Char}
    (h : (c :: t).dropWhile p = c :: t) : p c = false := by
  have := List.dropWhile_eq_self_iff.mp h (by simp)
  simpa using this

theorem rdropWhile_append_all {p : Char → Bool} {l ws : List Char}
    (h : ∀ c ∈ ws, p c = true) : (l ++ ws).rdropWhile p = l.rdropWhile p := by
  unfold List.rdropWhile
  rw [List.reverse_append, List.dropWhile_append_of_pos]
  intro a ha
  exact h a (List.mem_reverse.mp ha)

theorem pyStrip_wrap {ws1 ws4 mid : List Char}
    (h1 : ∀ c ∈ ws1, isPyWs c = true) (h4 : ∀ c ∈ ws4, isPyWs c = true)
    (hh : mid.dropWhile isPyWs = mid) (ht : mid.rdropWhile isPyWs = mid) :
    pyStrip (ws1 ++ mid ++ ws4) = mid := by
  unfold pyStrip
  rw [List.append_assoc, List.dropWhile_append_of_pos h1]
  cases mid with
  | nil =>
      rw [List.nil_append, List.dropWhile_eq_nil_iff.mpr h4]
      simp
  | cons c t =>
      have hc : isPyWs c = false := head_false_of_dropWhile_self hh
      rw [List.cons_append, List.dropWhile_cons_of_neg (by simp [hc]),
        ← List.cons_append, rdropWhile_append_all h4, ht]

theorem pyStrip_idem (l : List Char) : pyStrip (pyStrip l) = pyStrip l := by
  unfold pyStrip
  have hm := List.rdropWhile_prefix isPyWs (l.dropWhile isPyWs)
  obtain ⟨t, ht⟩ := hm
  have hn : (l.dropWhile isPyWs).dropWhile isPyWs = l.dropWhile isPyWs :=
    List.dropWhile_idempotent isPyWs l
  have hfix : ((l.dropWhile isPyWs).rdropWhile isPyWs).dropWhile isPyWs
      = (l.dropWhile isPyWs).rdropWhile isPyWs := by
    cases hcase : (l.dropWhile isPyWs).rdropWhile isPyWs with
    | nil => simp
    | cons c m =>
        rw [hcase] at ht
        have hc : isPyWs c = false := by
          apply head_false_of_dropWhile_self (t := m ++ t)
          show List.dropWhile isPyWs ((c :: m) ++ t) = (c :: m) ++ t
          rw [ht]
          exact hn
        exact List.dropWhile_cons_of_neg (by simp [hc])
  rw [hfix, List.rdropWhile_idempotent]

theorem pyStrip_clean (t : List Char) : pyStrip (clean_json_text t) = clean_json_text t := by
  unfold clean_json_text
  exact pyStrip_idem _

theorem isPrefixOf_append_self (a x : List Char) : a.isPrefixOf (a ++ x) = true := by
  induction a with
  | nil => simp
  | cons c t ih => simp [List.isPrefixOf_cons₂, ih]

theorem isPrefixOf_append_both (a b l : List Char) :
    (a ++ b).isPrefixOf (a ++ l) = b.isPrefixOf l := by
  induction a with
  | nil => rfl
  | cons c t ih => simpa [List.isPrefixOf_cons₂] using ih

theorem isPrefixOf_of_append_left {a b l : List Char}
    (h : (a ++ b).isPrefixOf l = true) : a.isPrefixOf l = true := by
  induction a generalizing l with
  | nil => simp
  | cons c t ih =>
      cases l with
      | nil => simp [List.isPrefixOf] at h
      | cons d m =>
          simp only [List.cons_append, List.isPrefixOf_cons₂, Bool.and_eq_true] at h ⊢
          exact ⟨h.1, ih h.2⟩

theorem isSuffixOf_append_self (a x : List Char) : a.isSuffixOf (x ++ a) = true := by
  unfold List.isSuffixOf
  rw [List.reverse_append]
  exact isPrefixOf_append_self _ _

/-! ### C4: idempotence of the fence cleaner -/

/-- C4 (counterexample): `clean_json_text` is not idempotent on every input:
on six backticks followed by `json x` the first pass peels three backticks,
the second pass then sees a `json` fence and strips seven more characters. -/
theorem c4_clean_not_idempotent :
    clean_json_text c4Text = "```json x".data ∧
    clean_json_text (clean_json_text c4Text) = "x".data ∧
    clean_json_text (clean_json_text c4Text) ≠ clean_json_text c4Text :=
  ⟨rfl, rfl, by decide⟩

/-- C4 (amended): `clean_json_text` is idempotent on every input whose
cleaned form neither starts nor ends with a ```` ``` ```` fence marker; a
second application then finds nothing to strip. -/
theorem c4_clean_idempotent_of_no_fence (t : List Char)
    (h1 : fencePlain.isPrefixOf (clean_json_text t) = false)
    (h2 : fencePlain.isSuffixOf (clean_json_text t) = false) :
    clean_json_text (clean_json_text t) = clean_json_text t := by
  have hs : pyStrip (clean_json_text t) = clean_json_text t := pyStrip_clean t
  have hj : fenceJson.isPrefixOf (clean_json_text t) = false := by
    cases hcase : fenceJson.isPrefixOf (clean_json_text t) with
    | false => rfl
    | true =>
        exfalso
        have hsplit : fenceJson = fencePlain ++ "json".data := rfl
        rw [hsplit] at hcase
        have hpl := isPrefixOf_of_append_left hcase
        rw [h1] at hpl
        exact Bool.noConfusion hpl
  show pyStrip (stripTrailingFence (stripLeadingFence (pyStrip (clean_json_text t)))) = _
  rw [hs]
  simp [stripLeadingFence, stripTrailingFence, hj, h1, h2, hs]

/-! ### C5: decoding a well-formed fenced response -/

theorem lexTokens_j (f : Nat) (r : List Char) : lexTokens (f + 1) ('j' :: r) = none := rfl

theorem pyJsonLoads_j (r : List Char) : pyJsonLoads ('j' :: r) = none := by
  unfold pyJsonLoads
  rw [show ('j' :: r).length = r.length + 1 from rfl, lexTokens_j]

theorem pyWs_ne_j {c : Char} (h : isPyWs c = true) : ('j' == c) = false := by
  have hc : c = ' ' ∨ c = '\t' ∨ c = '\n' ∨ c = '\r' ∨ c = '\x0b' ∨ c = '\x0c' := by
    unfold isPyWs isJsonWs at h
    simp only [Bool.or_eq_true, beq_iff_eq] at h
    tauto
  rcases hc with h | h | h | h | h | h <;> subst h <;> rfl

theorem pyStrip_fix_parts {q : List Char} (h : pyStrip q = q) :
    q.dropWhile isPyWs = q ∧ q.rdropWhile isPyWs = q := by
  have hd : q.dropWhile isPyWs = q := by
    have l1 : (q.dropWhile isPyWs).length ≤ q.length :=
      (List.dropWhile_suffix isPyWs).sublist.length_le
    have l2 : ((q.dropWhile isPyWs).rdropWhile isPyWs).length ≤ (q.dropWhile isPyWs).length :=
      ( List.rdropWhile_prefix isPyWs (q.dropWhile isPyWs)).sublist.length_le
    have e := congrArg List.length h
    exact (List.dropWhile_suffix isPyWs).sublist.eq_of_length (by
      unfold pyStrip at e
      omega)
  refine ⟨hd, ?_⟩
  have step : q.rdropWhile isPyWs = (q.dropWhile isPyWs).rdropWhile isPyWs := by rw [hd]
  rw [step]
  exact h

theorem rdropWhile_ends_fence (y : List Char) :
    (y ++ fencePlain).rdropWhile isPyWs = y ++ fencePlain := by
  have he : (y ++ ['\x60', '\x60']) ++ ['\x60'] = y ++ fencePlain := by
    simp [fencePlain]
  calc (y ++ fencePlain).rdropWhile isPyWs
      = ((y ++ ['\x60', '\x60']) ++ ['\x60']).rdropWhile isPyWs := by rw [he]
    _ = (y ++ ['\x60', '\x60']) ++ ['\x60'] := List.rdropWhile_concat_neg _ _ _ (by decide)
    _ = y ++ fencePlain := he

/-- C5: for every well-formed fenced JSON response, built as optional
whitespace, a ```` ```json ```` or plain ```` ``` ```` opening fence,
whitespace, a JSON array text `q` (trimmed; its surrounding whitespace is
`ws2`/`ws3`), whitespace, the closing fence and trailing whitespace,
stripping the fences with `clean_json_text` and decoding yields exactly the
same result as decoding the unfenced payload directly. -/
theorem c5_fenced_decode_eq (fence ws1 ws2 ws3 ws4 q : List Char) (a : List Json)
    (hfence : fence = fenceJson ∨ fence = fencePlain)
    (h1 : ∀ c ∈ ws1, isPyWs c = true) (h2 : ∀ c ∈ ws2, isPyWs c = true)
    (h3 : ∀ c ∈ ws3, isPyWs c = true) (h4 : ∀ c ∈ ws4, isPyWs c = true)
    (hq : pyStrip q = q)
    (ha : pyJsonLoads q = some (Json.arr a)) :
    pyJsonLoads (clean_json_text (ws1 ++ fence ++ ws2 ++ q ++ ws3 ++ fencePlain ++ ws4)) =
      pyJsonLoads q := by
  have hne : q ≠ [] := by
    intro hnil
    rw [hnil] at ha
    exact Option.noConfusion ha
  obtain ⟨hqd, hqr⟩ := pyStrip_fix_parts hq
  -- the body between the outer whitespace runs
  have hmidh : (fence ++ (ws2 ++ (q ++ (ws3 ++ fencePlain)))).dropWhile isPyWs
      = fence ++ (ws2 ++ (q ++ (ws3 ++ fencePlain))) := by
    rcases hfence with hF | hF <;> subst hF
    · exact List.dropWhile_cons_of_neg (by decide)
    · exact List.dropWhile_cons_of_neg (by decide)
  have hmidt : (fence ++ (ws2 ++ (q ++ (ws3 ++ fencePlain)))).rdropWhile isPyWs
      = fence ++ (ws2 ++ (q ++ (ws3 ++ fencePlain))) := by
    have he : fence ++ (ws2 ++ (q ++ (ws3 ++ fencePlain)))
        = (fence ++ (ws2 ++ (q ++ ws3))) ++ fencePlain := by
      simp [List.append_assoc]
    rw [he]
    exact rdropWhile_ends_fence _
  have hstrip : pyStrip (ws1 ++ fence ++ ws2 ++ q ++ ws3 ++ fencePlain ++ ws4)
      = fence ++ (ws2 ++ (q ++ (ws3 ++ fencePlain))) := by
    have hE : ws1 ++ fence ++ ws2 ++ q ++ ws3 ++ fencePlain ++ ws4
        = ws1 ++ (fence ++ (ws2 ++ (q ++ (ws3 ++ fencePlain)))) ++ ws4 := by
      simp [List.append_assoc]
    rw [hE]
    exact pyStrip_wrap h1 h4 hmidh hmidt
  -- the leading fence is removed, leaving the payload and the closing fence
  have hlead : stripLeadingFence (fence ++ (ws2 ++ (q ++ (ws3 ++ fencePlain))))
      = ws2 ++ (q ++ (ws3 ++ fencePlain)) := by
    rcases hfence with hF | hF <;> subst hF
    · unfold stripLeadingFence
      rw [isPrefixOf_append_self]
      simp only [if_true]
      exact List.drop_left' rfl
    · have hnotjson : fenceJson.isPrefixOf
          (fencePlain ++ (ws2 ++ (q ++ (ws3 ++ fencePlain)))) = false := by
        have hsplit : fenceJson = fencePlain ++ "json".data := rfl
        rw [hsplit, isPrefixOf_append_both]
        cases hws2 : ws2 with
        | cons c w =>
            have hc : isPyWs c = true := h2 c (by rw [hws2]; exact List.mem_cons_self c w)
            show ("json".data).isPrefixOf (c :: (w ++ (q ++ (ws3 ++ fencePlain)))) = false
            rw [show "json".data = 'j' :: "son".data from rfl, List.isPrefixOf_cons₂]
            rw [pyWs_ne_j hc]
            rfl
        | nil =>
            cases hqc : q with
            | nil => exact absurd hqc hne
            | cons c t =>
                have hcj : ('j' == c) = false := by
                  by_cases hc : c = 'j'
                  · subst hc
                    rw [hqc, pyJsonLoads_j] at ha
                    exact Option.noConfusion ha
                  · exact beq_eq_false_iff_ne.mpr fun e => hc e.symm
                show ("json".data).isPrefixOf ([] ++ (c :: t ++ (ws3 ++ fencePlain))) = false
                rw [List.nil_append]
                rw [show "json".data = 'j' :: "son".data from rfl]
                rw [show (c :: t) ++ (ws3 ++ fencePlain) = c :: (t ++ (ws3 ++ fencePlain))
                  from rfl]
                rw [List.isPrefixOf_cons₂, hcj]
                rfl
      unfold stripLeadingFence
      rw [hnotjson, isPrefixOf_append_self]
      simp only [Bool.false_eq_true, if_false, if_true]
      exact List.drop_left' rfl
  -- the trailing fence is removed, leaving the whitespace-wrapped payload
  have htrail : stripTrailingFence (ws2 ++ (q ++ (ws3 ++ fencePlain)))
      = ws2 ++ (q ++ ws3) := by
    have he : ws2 ++ (q ++ (ws3 ++ fencePlain)) = (ws2 ++ (q ++ ws3)) ++ fencePlain := by
      simp [List.append_assoc]
    rw [he]
    unfold stripTrailingFence
    rw [isSuffixOf_append_self]
    simp only [if_true]
    rw [List.length_append, show fencePlain.length = 3 from rfl, Nat.add_sub_cancel]
    exact List.take_left _ _
  -- the final strip removes the whitespace around the payload
  have hfinal : pyStrip (ws2 ++ (q ++ ws3)) = q := by
    have he : ws2 ++ (q ++ ws3) = ws2 ++ q ++ ws3 := by simp [List.append_assoc]
    rw [he]
    exact pyStrip_wrap h2 h3 hqd hqr
  show pyJsonLoads (pyStrip (stripTrailingFence (stripLeadingFence (pyStrip
    (ws1 ++ fence ++ ws2 ++ q ++ ws3 ++ fencePlain ++ ws4))))) = pyJsonLoads q
  rw [hstrip, hlead, htrail, hfinal]

/-- C5 witness: a concrete fenced response decodes to the same array as its
payload. -/
theorem c5_witness :
    pyJsonLoads c5Payload = some (Json.arr [Json.obj [("a".data, Json.str "b".data)]]) ∧
    pyJsonLoads (clean_json_text ([] ++ fenceJson ++ ['\n'] ++ c5Payload ++ ['\n'] ++
      fencePlain ++ [])) = pyJsonLoads c5Payload :=
  ⟨rfl,
    c5_fenced_decode_eq fenceJson [] ['\n'] ['\n'] [] c5Payload
      [Json.obj [("a".data, Json.str "b".data)]]
      (Or.inl rfl) (by decide) (by decide) (by decide) (by decide) rfl rfl⟩

/-- C4 witness input. -/
theorem c4_witness :
    fencePlain.isPrefixOf (clean_json_text "```json [1] ```".data) = false ∧
    fencePlain.isSuffixOf (clean_json_text "```json [1] ```".data) = false ∧
    clean_json_text (clean_json_text "```json [1] ```".data) =
      clean_json_text "```json [1] ```".data :=
  ⟨by decide, by decide,
    c4_clean_idempotent_of_no_fence "```json [1] ```".data (by decide) (by decide)⟩

/-! ### C6 and C7: per-file failure handling -/

theorem tagLoop_none_of_nonobj {fname : List Char} {xs : List Json}
    (h : xs.all isJsonObject = false) : tagLoop fname xs = none := by
  induction xs with
  | nil => simp at h
  | cons j rest ih =>
      cases j with
      | obj kvs =>
          have hrest : rest.all isJsonObject = false := by
            rw [List.all_cons, show isJsonObject (Json.obj kvs) = true from rfl,
              Bool.true_and] at h
            exact h
          unfold tagLoop
          rw [ih hrest]
          rfl
      | null => rfl
      | bool b => rfl
      | num n => rfl
      | str cs => rfl
      | arr ys => rfl

/-- C6 (counterexample): a response decoding to the empty JSON object is not
a valid array of objects, yet the file is skipped with no reported error
(iterating an empty dict raises nothing and `extend` appends nothing). -/
theorem c6_empty_object_silent :
    isArrayOfObjects (pyJsonLoads (clean_json_text c6File.response)) = false ∧
    processFile ⟨[], []⟩ c6File = ⟨[], []⟩ :=
  ⟨rfl, rfl⟩

/-- C6 (amended): a response whose cleaned text does not decode to a JSON
array of objects contributes zero records, and an error is reported for the
file unless the decoded value is an empty object or an empty string, which
are skipped silently. -/
theorem c6_nonarray_outcome (s : RunState) (f : UploadedFile)
    (h : isArrayOfObjects (pyJsonLoads (clean_json_text f.response)) = false) :
    (processFile s f).all_data = s.all_data ∧
    (processFile s f).errors =
      (if silentEmpty (pyJsonLoads (clean_json_text f.response)) then s.errors
       else s.errors ++ [f.name]) := by
  unfold processFile fileOutcome
  cases hj : pyJsonLoads (clean_json_text f.response) with
  | none => exact ⟨rfl, by simp [silentEmpty]⟩
  | some j =>
      rw [hj] at h
      cases j with
      | null => exact ⟨rfl, by simp [tagAndExtend, silentEmpty]⟩
      | bool b => exact ⟨rfl, by simp [tagAndExtend, silentEmpty]⟩
      | num n => exact ⟨rfl, by simp [tagAndExtend, silentEmpty]⟩
      | str cs =>
          cases cs with
          | nil => exact ⟨by simp [tagAndExtend], by simp [tagAndExtend, silentEmpty]⟩
          | cons c t => exact ⟨rfl, by simp [tagAndExtend, silentEmpty]⟩
      | arr xs =>
          have hall : xs.all isJsonObject = false := by simpa [isArrayOfObjects] using h
          refine ⟨?_, ?_⟩
          · show (match tagAndExtend f.name (Json.arr xs) with
              | some recs => RunState.mk (s.all_data ++ recs) s.errors
              | none => RunState.mk s.all_data (s.errors ++ [f.name])).all_data = s.all_data
            rw [show tagAndExtend f.name (Json.arr xs) = tagLoop f.name xs from rfl,
              tagLoop_none_of_nonobj hall]
          · show (match tagAndExtend f.name (Json.arr xs) with
              | some recs => RunState.mk (s.all_data ++ recs) s.errors
              | none => RunState.mk s.all_data (s.errors ++ [f.name])).errors = _
            rw [show tagAndExtend f.name (Json.arr xs) = tagLoop f.name xs from rfl,
              tagLoop_none_of_nonobj hall]
            simp [silentEmpty]
      | obj kvs =>
          cases kvs with
          | nil => exact ⟨by simp [tagAndExtend], by simp [tagAndExtend, silentEmpty]⟩
          | cons kv t => exact ⟨rfl, by simp [tagAndExtend, silentEmpty]⟩

/-- C6 witness: a response decoding to a bare number is reported as an error
and contributes nothing. -/
theorem c6_witness :
    isArrayOfObjects (pyJsonLoads (clean_json_text c6NumFile.response)) = false ∧
    (processFile ⟨[], []⟩ c6NumFile).all_data = RunState.all_data ⟨[], []⟩ ∧
    (processFile ⟨[], []⟩ c6NumFile).errors =
      (if silentEmpty (pyJsonLoads (clean_json_text c6NumFile.response))
       then RunState.errors ⟨[], []⟩
       else RunState.errors ⟨[], []⟩ ++ [c6NumFile.name]) :=
  ⟨rfl, (c6_nonarray_outcome ⟨[], []⟩ c6NumFile rfl).1,
    (c6_nonarray_outcome ⟨[], []⟩ c6NumFile rfl).2⟩

/-- C7: when a file's processing raises (its outcome is `none`), exactly one
per-file error is recorded, the accumulated batch is left untouched, and the
loop proceeds directly to the remaining files in order. -/
theorem c7_failure_isolated (s : RunState) (f : UploadedFile) (rest : List UploadedFile)
    (h : fileOutcome f = none) :
    processFile s f = ⟨s.all_data, s.errors ++ [f.name]⟩ ∧
    runFiles s (f :: rest) = runFiles ⟨s.all_data, s.errors ++ [f.name]⟩ rest := by
  have hstep : processFile s f = ⟨s.all_data, s.errors ++ [f.name]⟩ := by
    unfold processFile
    rw [h]
  refine ⟨hstep, ?_⟩
  unfold runFiles
  rw [List.foldl_cons, hstep]

/-- C7 witness: the literal `Error: <message>` response fails to parse; the
batch is unchanged and processing moves on. -/
theorem c7_witness :
    fileOutcome c7File = none ∧
    processFile ⟨[], []⟩ c7File = ⟨[], [] ++ [c7File.name]⟩ ∧
    runFiles ⟨[], []⟩ (c7File :: []) = runFiles ⟨[], [] ++ [c7File.name]⟩ [] :=
  ⟨rfl, (c7_failure_isolated ⟨[], []⟩ c7File [] rfl).1,
    (c7_failure_isolated ⟨[], []⟩ c7File [] rfl).2⟩

/-! ### C8: empty batch means no artifact -/

/-- C8: when the accumulated batch of a run is empty, no spreadsheet
artifact is built and the "no data extracted" warning is shown instead. -/
theorem c8_empty_batch_no_artifact (files : List UploadedFile)
    (h : (runFiles ⟨[], []⟩ files).all_data = []) :
    buildArtifact (runFiles ⟨[], []⟩ files).all_data = none ∧
    noDataWarning (runFiles ⟨[], []⟩ files).all_data = true := by
  rw [h]
  exact ⟨rfl, rfl⟩

/-- C8 witness: a run over one malformed file yields an empty batch, no
artifact and the warning. -/
theorem c8_witness :
    (runFiles ⟨[], []⟩ [c8File]).all_data = [] ∧
    buildArtifact (runFiles ⟨[], []⟩ [c8File]).all_data = none ∧
    noDataWarning (runFiles ⟨[], []⟩ [c8File]).all_data = true :=
  ⟨rfl, (c8_empty_batch_no_artifact [c8File] rfl).1,
    (c8_empty_batch_no_artifact [c8File] rfl).2⟩

/-! ### C9: provenance tagging -/

theorem pyLookup_dictInsert (d : PyDict) (k : List Char) (v : Json) :
    pyLookup (dictInsert d k v) k = some v := by
  induction d with
  | nil => simp [dictInsert, pyLookup]
  | cons kv rest ih =>
      obtain ⟨k1, v1⟩ := kv
      by_cases hk : k1 = k
      · simp [dictInsert, pyLookup, hk]
      · simp [dictInsert, pyLookup, hk, ih]

theorem tagLoop_lookup {fname : List Char} {xs : List Json} {recs : List PyDict}
    (h : tagLoop fname xs = some recs) :
    ∀ r ∈ recs, pyLookup r sourceFileKey = some (Json.str fname) := by
  induction xs generalizing recs with
  | nil =>
      unfold tagLoop at h
      obtain rfl : ([] : List PyDict) = recs := Option.some.inj h
      intro r hr
      simp at hr
  | cons j rest ih =>
      cases j with
      | obj kvs =>
          unfold tagLoop at h
          cases hrec : tagLoop fname rest with
          | none => rw [hrec] at h; exact Option.noConfusion h
          | some rs =>
              rw [hrec] at h
              obtain rfl : dictInsert kvs sourceFileKey (Json.str fname) :: rs = recs :=
                Option.some.inj h
              intro r hr
              rcases List.mem_cons.mp hr with h1 | h1
              · rw [h1]
                exact pyLookup_dictInsert kvs sourceFileKey (Json.str fname)
              · exact ih hrec r h1
      | null => exact Option.noConfusion h
      | bool b => exact Option.noConfusion h
      | num n => exact Option.noConfusion h
      | str cs => exact Option.noConfusion h
      | arr ys => exact Option.noConfusion h

theorem tagAndExtend_lookup {fname : List Char} {j : Json} {recs : List PyDict}
    (h : tagAndExtend fname j = some recs) :
    ∀ r ∈ recs, pyLookup r sourceFileKey = some (Json.str fname) := by
  cases j with
  | arr xs => exact tagLoop_lookup h
  | obj kvs =>
      cases kvs with
      | nil =>
          obtain rfl : ([] : List PyDict) = recs := Option.some.inj h
          intro r hr
          simp at hr
      | cons kv t => exact Option.noConfusion h
  | str cs =>
      cases cs with
      | nil =>
          obtain rfl : ([] : List PyDict) = recs := Option.some.inj h
          intro r hr
          simp at hr
      | cons c t => exact Option.noConfusion h
  | null => exact Option.noConfusion h
  | bool b => exact Option.noConfusion h
  | num n => exact Option.noConfusion h

/-- C9: any record present after processing a file either was already in the
batch, or carries that file's upload name in `Source_File` — the tag
overwrites whatever the AI response put there, so every contributed record
is stamped with the name of the file it came from. -/
theorem c9_source_file_tagged (s : RunState) (f : UploadedFile) (r : PyDict)
    (h : r ∈ (processFile s f).all_data) :
    r ∈ s.all_data ∨ pyLookup r sourceFileKey = some (Json.str f.name) := by
  unfold processFile at h
  cases hout : fileOutcome f with
  | none =>
      rw [hout] at h
      exact Or.inl h
  | some recs =>
      rw [hout] at h
      rcases List.mem_append.mp h with h1 | h1
      · exact Or.inl h1
      · right
        unfold fileOutcome at hout
        cases hl : pyJsonLoads (clean_json_text f.response) with
        | none => rw [hl] at hout; exact Option.noConfusion hout
        | some j =>
            rw [hl] at hout
            exact tagAndExtend_lookup hout r h1

/-- C9 witness: a record whose response pre-set `Source_File` to a bogus
value ends up stamped with the upload name. -/
theorem c9_witness :
    c9Rec ∈ (processFile ⟨[], []⟩ c9File).all_data ∧
    (c9Rec ∈ RunState.all_data ⟨[], []⟩ ∨
      pyLookup c9Rec sourceFileKey = some (Json.str c9File.name)) :=
  ⟨show c9Rec ∈ [c9Rec] from List.mem_singleton.mpr rfl,
    c9_source_file_tagged ⟨[], []⟩ c9File c9Rec
      (show c9Rec ∈ [c9Rec] from List.mem_singleton.mpr rfl)⟩

/-! ### C10: content-type fallback -/

/-- C10: when the detected content type is empty, a name ending in `.png` or
`.jpg` is treated as `image/png` and anything else as `text/plain`; in
particular every `.jpeg` name falls through to `text/plain`. -/
theorem c10_mime_fallback (name stem : List Char) :
    resolveMime [] name =
      (if ".png".data.isSuffixOf name || ".jpg".data.isSuffixOf name
       then "image/png".data else "text/plain".data) ∧
    resolveMime [] (stem ++ ".jpeg".data) = "text/plain".data := by
  have hrev : (stem ++ ".jpeg".data).reverse = 'g' :: 'e' :: 'p' :: 'j' :: '.' :: stem.reverse := by
    rw [List.reverse_append]
    rfl
  have hpng : ".png".data.isSuffixOf (stem ++ ".jpeg".data) = false := by
    unfold List.isSuffixOf
    rw [hrev]
    rw [show ".png".data.reverse = 'g' :: 'n' :: 'p' :: '.' :: [] from rfl]
    rw [List.isPrefixOf_cons₂, List.isPrefixOf_cons₂]
    rw [show ('n' == 'e') = false from rfl]
    simp
  have hjpg : ".jpg".data.isSuffixOf (stem ++ ".jpeg".data) = false := by
    unfold List.isSuffixOf
    rw [hrev]
    rw [show ".jpg".data.reverse = 'g' :: 'p' :: 'j' :: '.' :: [] from rfl]
    rw [List.isPrefixOf_cons₂, List.isPrefixOf_cons₂]
    rw [show ('p' == 'e') = false from rfl]
    simp
  exact ⟨rfl, by simp [resolveMime, hpng, hjpg]⟩

/-! ### C1, C2, C3: column completion and emission -/

theorem mem_foldl_keys (data : List PyDict) (acc : List (List Char)) (c : List Char) :
    (c ∈ data.foldl
      (fun cols r => cols ++ (r.map Prod.fst).filter (fun k => decide (k ∉ cols))) acc)
    ↔ (c ∈ acc ∨ ∃ r ∈ data, c ∈ r.map Prod.fst) := by
  induction data generalizing acc with
  | nil => simp
  | cons r rest ih =>
      rw [List.foldl_cons, ih]
      simp only [List.mem_append, List.mem_filter, decide_eq_true_eq, List.mem_cons]
      constructor
      · rintro (h | h)
        · tauto
        · obtain ⟨w, hw, hc⟩ := h
          exact Or.inr ⟨w, Or.inr hw, hc⟩
      · rintro (h | ⟨w, hw | hw, hc⟩)
        · tauto
        · subst hw
          by_cases hacc : c ∈ acc
          · tauto
          · exact Or.inl (Or.inr ⟨hc, hacc⟩)
        · exact Or.inr ⟨w, hw, hc⟩

theorem mem_allKeysList {data : List PyDict} {c : List Char} :
    c ∈ allKeysList data ↔ ∃ r ∈ data, c ∈ r.map Prod.fst := by
  unfold allKeysList
  rw [mem_foldl_keys]
  simp

theorem pyLookup_eq_none_iff (r : PyDict) (c : List Char) :
    pyLookup r c = none ↔ c ∉ r.map Prod.fst := by
  induction r with
  | nil => simp [pyLookup]
  | cons kv rest ih =>
      obtain ⟨k1, v1⟩ := kv
      by_cases hk : k1 = c
      · subst hk
        simp [pyLookup]
      · simp [pyLookup, hk, ih, Ne.symm hk]

/-- C1 (counterexample): after column completion two records keep their own
distinct `School_CN` values, so the batch does not carry identical
school/program fields. -/
theorem c1_records_not_identical :
    completedCell c1Data 0 "School_CN".data = some (Json.str "A".data) ∧
    completedCell c1Data 1 "School_CN".data = some (Json.str "B".data) ∧
    "A".data ≠ "B".data :=
  ⟨rfl, rfl, by decide⟩

/-- C1 (amended): normalization is column completion only — it never
rewrites an existing field, so each record keeps its own extracted
school/program values; the first record's values are not propagated and the
user-supplied strings are not consulted (they only feed the AI prompt). -/
theorem c1_normalization_preserves_values (data : List PyDict) (i : Nat) (r : PyDict)
    (c : List Char) (v : Json) (hr : data[i]? = some r) (hv : pyLookup r c = some v) :
    completedCell data i c = some v := by
  have hkey : c ∈ r.map Prod.fst := by
    by_contra hnot
    have := (pyLookup_eq_none_iff r c).mpr hnot
    rw [hv] at this
    exact Option.noConfusion this
  have hmem : c ∈ allKeysList data :=
    mem_allKeysList.mpr ⟨r, List.getElem?_mem hr, hkey⟩
  unfold completedCell
  rw [if_pos hmem, hr]
  exact hv

/-- C1 witness: the preservation theorem applied to the first record of the
two-school batch. -/
theorem c1_witness :
    c1Data[0]? = some [("School_CN".data, Json.str "A".data)] ∧
    pyLookup [("School_CN".data, Json.str "A".data)] "School_CN".data
      = some (Json.str "A".data) ∧
    completedCell c1Data 0 "School_CN".data = some (Json.str "A".data) :=
  ⟨rfl, rfl,
    c1_normalization_preserves_values c1Data 0 [("School_CN".data, Json.str "A".data)]
      "School_CN".data (Json.str "A".data) rfl rfl⟩

/-- C2 (counterexample): the emitted rows of an A, B, A batch keep that
order, so the two rows sharing the grouping key A are not contiguous and no
sort happens before emission. -/
theorem c2_rows_not_contiguous :
    (exportedRows c2Data).map rowGroupKey =
      [c2Key "A".data, c2Key "B".data, c2Key "A".data] ∧
    c2Key "A".data ≠ c2Key "B".data := by
  refine ⟨rfl, ?_⟩
  intro h
  have h0 := congrArg List.head? h
  simp only [c2Key, List.head?_cons, Option.some.injEq, Json.str.injEq] at h0
  exact absurd h0 (by decide)

/-- C2 (amended): the export emits exactly one row per record in batch
insertion order, each row rendering all seven columns of that record — no
sorting or merging is performed, so equal grouping keys are contiguous only
when already contiguous in the batch. -/
theorem c2_rows_in_batch_order (data : List PyDict) :
    (exportedRows data).length = data.length ∧
    ∀ i (hi : i < (exportedRows data).length),
      (exportedRows data).get ⟨i, hi⟩ = desired_columns.map (completedCell data i) := by
  refine ⟨by simp [exportedRows], ?_⟩
  intro i hi
  unfold exportedRows at hi ⊢
  rw [List.get_eq_getElem, List.getElem_map, List.getElem_range]
  rfl

/-- C2 witness: row 0 of the A, B, A batch is record 0's projection. -/
theorem c2_witness :
    (exportedRows c2Data).length = c2Data.length ∧
    (exportedRows c2Data).get ⟨0, by decide⟩ =
      desired_columns.map (completedCell c2Data 0) :=
  ⟨(c2_rows_in_batch_order c2Data).1, (c2_rows_in_batch_order c2Data).2 0 (by decide)⟩

/-- C3 (counterexample): a record lacking a field that another record
supplies keeps the missing marker (`NaN`), not the empty string; only a
column absent from every record is defaulted to the empty string. -/
theorem c3_missing_field_not_empty_string :
    completedCell c3Data 1 "Course_Name_EN".data = none ∧
    (none : Option Json) ≠ some (Json.str []) ∧
    completedCell c3Data 0 "Program_CN".data = some (Json.str []) :=
  ⟨rfl, by simp, rfl⟩

/-- C3 (amended): an exported cell is missing exactly when its column exists
in the batch (some record has the key) but this record lacks it; otherwise
the cell holds the record's own value, or the empty string for a column
absent from the whole batch. -/
theorem c3_missing_cell_iff (data : List PyDict) (i : Nat) (r : PyDict) (c : List Char)
    (hr : data[i]? = some r) :
    completedCell data i c = none ↔ (c ∈ allKeysList data ∧ pyLookup r c = none) := by
  unfold completedCell
  by_cases hmem : c ∈ allKeysList data
  · rw [if_pos hmem, hr]
    show pyLookup r c = none ↔ _
    simp [hmem]
  · rw [if_neg hmem]
    simp [hmem]

/-- C3 witness: the iff applied to the record that lacks `Course_Name_EN`
while the other record supplies it. -/
theorem c3_witness :
    c3Data[1]? = some [("School_CN".data, Json.str "A".data)] ∧
    (completedCell c3Data 1 "Course_Name_EN".data = none ↔
      ("Course_Name_EN".data ∈ allKeysList c3Data ∧
        pyLookup [("School_CN".data, Json.str "A".data)] "Course_Name_EN".data = none)) :=
  ⟨rfl, c3_missing_cell_iff c3Data 1 [("School_CN".data, Json.str "A".data)]
    "Course_Name_EN".data rfl⟩

